import Mathlib

/-!
# Verification of the MathUtils library (Time / Vector / Matrix headers)

A shallow embedding of the MathUtils C++ headers, with theorems settling the
specification claims about them.

Conventions of the embedding:
* The generic numeric representation type `T` is modelled by `ℤ`; the C++ `/`
  on integral types (truncation toward zero) is modelled by `Int.tdiv`.
* `uint64_t` arithmetic is modelled by `ℕ` arithmetic reduced `% 2 ^ 64` at
  each operation.
* A runtime `assert` is modelled by returning `Option`: `none` means the
  assertion fired (the program aborted), `some v` means the operation returned
  the value `v`.
* `Vector<T, N>` is modelled by a `List ℤ` of length `N`; the indexed loops of
  the source become `List.range`/`List.getD` constructions or structural
  recursions that perform the same element accesses in the same order.
-/

set_option maxHeartbeats 1000000

namespace MathUtils

/-- Embeds `enum TimeUnit : uint8_t` (Time.h lines 15-24): seven units, each
step a factor of 1000, with underlying values 0..6. -/
inductive TimeUnit
  | Attosecond
  | Femtosecond
  | Picosecond
  | Nanosecond
  | Microsecond
  | Millisecond
  | Second
deriving DecidableEq

/-- The underlying integer value of each enumerator (`Attosecond = 0`, ...,
`Second = 6`), used by the source wherever the enum is compared or subtracted. -/
def TimeUnit.idx : TimeUnit → ℕ
  | .Attosecond => 0
  | .Femtosecond => 1
  | .Picosecond => 2
  | .Nanosecond => 3
  | .Microsecond => 4
  | .Millisecond => 5
  | .Second => 6

theorem TimeUnit.idx_le_six (u : TimeUnit) : u.idx ≤ 6 := by
  cases u <;> simp [TimeUnit.idx]

theorem TimeUnit.idx_inj : ∀ {a b : TimeUnit}, a.idx = b.idx → a = b := by
  intro a b h
  cases a <;> cases b <;> simp_all [TimeUnit.idx]

/-- Embeds `detail::conversionFactor<fromUnit, toUnit>` (Time.h lines 55-66) on
the enumerators' underlying values: `if (toUnit == fromUnit) return 1; else
return 1000ULL * conversionFactor<fromUnit - 1, toUnit>()`.  The
`static_assert(fromUnit >= toUnit, ...)` restricts the valid domain to
`t ≤ f`; the multiplication is performed in `uint64_t`, hence the `% 2 ^ 64`. -/
def conversionFactorU64 : ℕ → ℕ → ℕ
  | 0, _ => 1
  | f + 1, t => if t < f + 1 then (1000 * conversionFactorU64 f t) % 2 ^ 64 else 1

/-- On the statically valid domain (`t ≤ f`, difference at most the six steps
separating `Attosecond` from `Second`) the `uint64_t` accumulation never wraps
and equals the exact power `1000 ^ (f - t)`. -/
theorem conversionFactorU64_eq_pow :
    ∀ f t : ℕ, t ≤ f → f - t ≤ 6 → conversionFactorU64 f t = 1000 ^ (f - t) := by
  intro f
  induction f with
  | zero =>
    intro t ht _
    have : t = 0 := Nat.le_zero.mp ht
    subst this
    simp [conversionFactorU64]
  | succ n ih =>
    intro t ht hk
    by_cases h : t = n + 1
    · subst h
      simp [conversionFactorU64]
    · have htn : t ≤ n := by omega
      have hlt : t < n + 1 := by omega
      rw [conversionFactorU64, if_pos hlt, ih t htn (by omega)]
      have hpow : 1000 * 1000 ^ (n - t) = 1000 ^ (n + 1 - t) := by
        have : n + 1 - t = (n - t) + 1 := by omega
        rw [this, pow_succ]
        ring
      rw [hpow, Nat.mod_eq_of_lt]
      calc 1000 ^ (n + 1 - t) ≤ 1000 ^ 6 :=
            Nat.pow_le_pow_right (by norm_num) (by omega)
        _ < 2 ^ 64 := by norm_num

/-- Embeds `detail::convert<fromUnit, toUnit, T>(value)` (Time.h lines 70-86):
identity when the units are equal; division by
`conversionFactor<toUnit, fromUnit>()` when `toUnit > fromUnit` (converting to
a larger unit); multiplication by `conversionFactor<fromUnit, toUnit>()`
otherwise.  `T`'s `/` is modelled by `Int.tdiv`. -/
def convert (f t : TimeUnit) (v : ℤ) : ℤ :=
  if f = t then v
  else if f.idx < t.idx then Int.tdiv v ((conversionFactorU64 t.idx f.idx : ℕ) : ℤ)
  else v * ((conversionFactorU64 f.idx t.idx : ℕ) : ℤ)

/-- Embeds `Interval<Unit, T>` (Time.h lines 90-229): a stored scalar
`duration` tagged with its unit. -/
structure Interval where
  unit : TimeUnit
  duration : ℤ
deriving DecidableEq

/-- Embeds `Interval::getDuration` (Time.h lines 116-119). -/
def Interval.getDuration (i : Interval) : ℤ := i.duration

/-- Embeds `Interval::as<toUnit>` (Time.h lines 138-142):
`Interval<toUnit, T>(detail::convert<Unit, toUnit, T>(duration))`. -/
def Interval.asU (i : Interval) (t : TimeUnit) : Interval :=
  ⟨t, convert i.unit t i.duration⟩

/-- Embeds `Interval::operator==` (Time.h lines 148-152): the source compares
`duration == detail::convert<Unit, OtherUnit, T>(other.duration)`, i.e. the
right operand's stored value is passed to `convert` with `fromUnit = Unit`
(the LEFT operand's unit) and `toUnit = OtherUnit`. -/
def Interval.eqI (a b : Interval) : Bool :=
  a.duration == convert a.unit b.unit b.duration

/-- Embeds `Interval::operator<` (Time.h lines 160-164), with the same
`convert<Unit, OtherUnit>` argument order as `operator==`. -/
def Interval.ltI (a b : Interval) : Bool :=
  decide (a.duration < convert a.unit b.unit b.duration)

/-- Embeds `Interval::operator/(T value)` (Time.h lines 199-203):
`assert(value != 0 && "Division by zero in Interval.")`, then divide.  The
same guard protects `operator/=` (lines 223-228). -/
def Interval.divScalar (i : Interval) (v : ℤ) : Option Interval :=
  if v = 0 then none else some ⟨i.unit, Int.tdiv i.duration v⟩

/-- Embeds `Time<Unit, T>` (Time.h lines 231-355): a stored scalar `timePoint`
tagged with its unit. -/
structure Time where
  unit : TimeUnit
  timePoint : ℤ
deriving DecidableEq

/-- Embeds `Time::getValue` (Time.h lines 257-260). -/
def Time.getValue (t : Time) : ℤ := t.timePoint

/-- Embeds `Time::operator==` (Time.h lines 293-297): like
`Interval::operator==`, the right operand's stored value is passed to
`convert` with `fromUnit = Unit` (the left operand's unit). -/
def Time.eqT (a b : Time) : Bool :=
  a.timePoint == convert a.unit b.unit b.timePoint

/-- Embeds `Time::operator-(const Time &other)` (Time.h lines 351-354): both
operands share the compile-time `Unit`; the result is
`Interval(timePoint - other.timePoint)` with the declared return type
`Interval<Unit, T>`. -/
def Time.subT (a b : Time) : Interval :=
  ⟨a.unit, a.timePoint - b.timePoint⟩

/-- Embeds `Time::operator+(const Interval<Unit, T> &other)` (Time.h lines
329-332): `Time(timePoint + other.getDuration())`, same unit. -/
def Time.addI (a : Time) (i : Interval) : Time :=
  ⟨a.unit, a.timePoint + i.getDuration⟩

/-- C4: `detail::convert<from, to>(v)` returns `v / 1000 ^ k` when `to` has the
higher enumeration index, `v * 1000 ^ k` when lower, and `v` unchanged when
equal, with `k = |from - to|`; the `uint64_t` factor is exact for every valid
unit pair, and the `Second`-over-`Attosecond` factor is exactly `10 ^ 18`. -/
theorem convert_conversion_factor_exact (f t : TimeUnit) (v : ℤ) :
    (f = t → convert f t v = v)
    ∧ (f.idx < t.idx → convert f t v = Int.tdiv v ((1000 : ℤ) ^ (t.idx - f.idx)))
    ∧ (t.idx < f.idx → convert f t v = v * (1000 : ℤ) ^ (f.idx - t.idx))
    ∧ (t.idx ≤ f.idx → conversionFactorU64 f.idx t.idx = 1000 ^ (f.idx - t.idx))
    ∧ conversionFactorU64 TimeUnit.Second.idx TimeUnit.Attosecond.idx = 10 ^ 18 := by
  refine ⟨?_, ?_, ?_, ?_, ?_⟩
  · intro h
    simp [convert, h]
  · intro h
    have hne : f ≠ t := fun e => by subst e; exact lt_irrefl _ h
    have h6 := t.idx_le_six
    rw [convert, if_neg hne, if_pos h,
      conversionFactorU64_eq_pow t.idx f.idx (le_of_lt h) (by omega)]
    norm_cast
  · intro h
    have hne : f ≠ t := fun e => by subst e; exact lt_irrefl _ h
    have hnlt : ¬ f.idx < t.idx := by omega
    have h6 := f.idx_le_six
    rw [convert, if_neg hne, if_neg hnlt,
      conversionFactorU64_eq_pow f.idx t.idx (le_of_lt h) (by omega)]
    norm_cast
  · intro h
    have h6 := f.idx_le_six
    exact conversionFactorU64_eq_pow _ _ h (by omega)
  · decide

/-- Witness for `convert_conversion_factor_exact` at
`from = Attosecond`, `to = Second`, `v = 10 ^ 18`. -/
theorem convert_conversion_factor_exact_witness :
    TimeUnit.idx TimeUnit.Attosecond < TimeUnit.idx TimeUnit.Second
    ∧ convert TimeUnit.Attosecond TimeUnit.Second (10 ^ 18) =
        Int.tdiv (10 ^ 18)
          ((1000 : ℤ) ^ (TimeUnit.idx TimeUnit.Second - TimeUnit.idx TimeUnit.Attosecond)) :=
  ⟨by decide,
    (convert_conversion_factor_exact TimeUnit.Attosecond TimeUnit.Second (10 ^ 18)).2.1
      (by decide)⟩

/-- C1 (claim fails on the code): the cross-unit comparison operators pass the
right operand's stored value to `detail::convert` with the template arguments
`<Unit, OtherUnit>` — treating it as a value in the LEFT operand's unit — so
`Interval<Second>(1) == Interval<Millisecond>(1000)` evaluates
`1 == 1000 * 1000` and is `false`, although converting the right operand from
its own unit into the left operand's unit (as the claim states) yields
`1 == 1`.  `Time` has the same comparison bodies and the same behaviour. -/
theorem interval_time_cmp_wrong_direction :
    Interval.eqI ⟨TimeUnit.Second, 1⟩ ⟨TimeUnit.Millisecond, 1000⟩ = false
    ∧ Interval.ltI ⟨TimeUnit.Second, 1⟩ ⟨TimeUnit.Millisecond, 1000⟩ = true
    ∧ convert TimeUnit.Millisecond TimeUnit.Second 1000 = 1
    ∧ ((1 : ℤ) == convert TimeUnit.Millisecond TimeUnit.Second 1000) = true
    ∧ Time.eqT ⟨TimeUnit.Second, 1⟩ ⟨TimeUnit.Millisecond, 1000⟩ = false := by
  decide

/-- C7: `as<U2>().as<U1>()` is the identity on the stored duration whenever
the first conversion step multiplies (`U2` at most as large as `U1`) or the
dividing first step is exact (`1000 ^ k ∣ v`). -/
theorem interval_unit_roundtrip (u1 u2 : TimeUnit) (v : ℤ)
    (h : u2.idx ≤ u1.idx ∨ ((1000 : ℤ) ^ (u2.idx - u1.idx)) ∣ v) :
    (((Interval.mk u1 v).asU u2).asU u1).getDuration = v := by
  rcases Nat.lt_trichotomy u1.idx u2.idx with hlt | heq | hgt
  · have hdvd : ((1000 : ℤ) ^ (u2.idx - u1.idx)) ∣ v := by
      rcases h with h | h
      · omega
      · exact h
    simp only [Interval.asU, Interval.getDuration]
    rw [(convert_conversion_factor_exact u1 u2 v).2.1 hlt]
    rw [((convert_conversion_factor_exact u2 u1
      (Int.tdiv v ((1000 : ℤ) ^ (u2.idx - u1.idx)))).2.2.1) hlt]
    rw [Int.tdiv_eq_ediv_of_dvd hdvd]
    exact Int.ediv_mul_cancel hdvd
  · have : u1 = u2 := TimeUnit.idx_inj heq
    subst this
    simp [Interval.asU, Interval.getDuration, convert]
  · simp only [Interval.asU, Interval.getDuration]
    rw [(convert_conversion_factor_exact u1 u2 v).2.2.1 hgt]
    rw [(convert_conversion_factor_exact u2 u1
      (v * (1000 : ℤ) ^ (u1.idx - u2.idx))).2.1 hgt]
    exact Int.mul_tdiv_cancel v (by positivity)

/-- Witness for `interval_unit_roundtrip` at the chain
`Second → Millisecond → Second` with `v = 7`. -/
theorem interval_unit_roundtrip_witness :
    (TimeUnit.idx TimeUnit.Millisecond ≤ TimeUnit.idx TimeUnit.Second
        ∨ ((1000 : ℤ) ^ (TimeUnit.idx TimeUnit.Millisecond - TimeUnit.idx TimeUnit.Second)) ∣ 7)
    ∧ (((Interval.mk TimeUnit.Second 7).asU TimeUnit.Millisecond).asU
        TimeUnit.Second).getDuration = 7 :=
  ⟨Or.inl (by decide),
    interval_unit_roundtrip TimeUnit.Second TimeUnit.Millisecond 7 (Or.inl (by decide))⟩

/-- C10: for two `Time` values of the same unit, `a - b` stores
`a.timePoint - b.timePoint` (as an `Interval` of that unit) and
`b + (a - b) == a`. -/
theorem time_sub_add_cancel (u : TimeUnit) (x y : ℤ) :
    ((Time.mk u x).subT (Time.mk u y)).getDuration = x - y
    ∧ ((Time.mk u x).subT (Time.mk u y)).unit = u
    ∧ (Time.mk u y).addI ((Time.mk u x).subT (Time.mk u y)) = Time.mk u x
    ∧ Time.eqT ((Time.mk u y).addI ((Time.mk u x).subT (Time.mk u y)))
        (Time.mk u x) = true := by
  have hx : y + (x - y) = x := by ring
  refine ⟨rfl, rfl, ?_, ?_⟩
  · simp [Time.addI, Time.subT, Interval.getDuration, hx]
  · simp [Time.eqT, Time.addI, Time.subT, Interval.getDuration, convert, hx]

/-! ## FixedVector (Vector.h)

`Vector<T, N>` is a `List ℤ` of length `N`.  A loop
`for (i = 0; i < n; ++i) result[i] = f(i)` is embedded as
`buildVec n f`; reads of `other.data[i]` that the loop bounds keep in range
are written with `List.getD _ _ 0`, which agrees with the array read on every
index the source actually touches. -/

/-- The vector produced by an n-iteration index loop writing `f i` to slot `i`
of a value-initialised (all-zero) result. -/
def buildVec (n : ℕ) (f : ℕ → ℤ) : List ℤ :=
  (List.range n).map f

theorem buildVec_length (n : ℕ) (f : ℕ → ℤ) : (buildVec n f).length = n := by
  simp [buildVec]

theorem buildVec_getD (n : ℕ) (f : ℕ → ℤ) (i : ℕ) (h : i < n) :
    (buildVec n f).getD i 0 = f i := by
  rw [List.getD_eq_getElem _ _ (by simpa [buildVec] using h)]
  simp [buildVec]

theorem buildVec_getD_ge (n : ℕ) (f : ℕ → ℤ) (i : ℕ) (h : n ≤ i) :
    (buildVec n f).getD i 0 = 0 :=
  List.getD_eq_default _ _ (by simpa [buildVec] using h)

theorem buildVec_congr (n : ℕ) (f g : ℕ → ℤ) (h : ∀ i, i < n → f i = g i) :
    buildVec n f = buildVec n g := by
  unfold buildVec
  apply List.map_congr_left
  intro a ha
  exact h a (List.mem_range.mp ha)

theorem replicate_getD (k i : ℕ) : (List.replicate k (0 : ℤ)).getD i 0 = 0 := by
  rcases Nat.lt_or_ge i k with h | h
  · rw [List.getD_eq_getElem _ _ (by simpa using h)]
    simp
  · exact List.getD_eq_default _ _ (by simpa using h)

/-- Embeds `Vector::operator+(const Vector<T, M>&)` (Vector.h lines 232-250):
if `N >= M` the result copies `*this` and adds `other` over the first `M`
slots, otherwise it copies `other` and adds `*this` over the first `N` slots
(`getD _ _ 0` is the copied slot left untouched beyond the shorter length). -/
def vecAdd (a b : List ℤ) : List ℤ :=
  if b.length ≤ a.length then
    buildVec a.length (fun i => a.getD i 0 + b.getD i 0)
  else
    buildVec b.length (fun i => b.getD i 0 + a.getD i 0)

/-- Embeds `Vector::operator-(const Vector<T, M>&)` (Vector.h lines 258-276):
`N >= M` subtracts `other` from a copy of `*this`; otherwise the result starts
from `-other` and adds `*this` over the first `N` slots. -/
def vecSub (a b : List ℤ) : List ℤ :=
  if b.length ≤ a.length then
    buildVec a.length (fun i => a.getD i 0 - b.getD i 0)
  else
    buildVec b.length (fun i => -(b.getD i 0) + a.getD i 0)

/-- Embeds `Vector::operator*(const Vector<T, M>&)` (Vector.h lines 284-302):
the result is default-constructed (all zero) at the longer size and only the
first `min(N, M)` slots receive the products. -/
def vecMul (a b : List ℤ) : List ℤ :=
  if b.length ≤ a.length then
    buildVec a.length (fun i => if i < b.length then a.getD i 0 * b.getD i 0 else 0)
  else
    buildVec b.length (fun i => if i < a.length then a.getD i 0 * b.getD i 0 else 0)

/-- Embeds `Vector::operator/(const Vector<T, M>&)` (Vector.h lines 310-319),
declared only for `N <= M` (`std::enable_if_t<(N <= M)>`): the result is
default-constructed (all zero) at size `M` and only the first `N` slots
receive quotients.  The body contains no `assert`; the element division is the
raw scalar `/`, modelled by `Int.tdiv`. -/
def vecDiv (a b : List ℤ) : List ℤ :=
  buildVec b.length (fun i => if i < a.length then Int.tdiv (a.getD i 0) (b.getD i 0) else 0)

/-- Embeds `Vector::operator*=(const Vector<T, M>&)` (Vector.h lines 360-368),
declared only for `N >= M`: slots `0..M-1` are multiplied in place, slots
`M..N-1` keep their old values. -/
def vecMulAssign (a b : List ℤ) : List ℤ :=
  buildVec a.length (fun i => if i < b.length then a.getD i 0 * b.getD i 0 else a.getD i 0)

/-- `Vector::operator/(const Vector<T, M>&)` wrapped in the abort model: the
body reaches no `assert`, so it always returns a value (`some _`). -/
def vecDivUnchecked (a b : List ℤ) : Option (List ℤ) :=
  some (vecDiv a b)

/-- Embeds `Vector::operator/(const T &scalar)` (Vector.h lines 436-445):
`assert(scalar != T() && "Division by zero.")`, then divide each slot.  The
same guard protects `operator/=` (lines 495-503). -/
def vecScalarDiv (a : List ℤ) (s : ℤ) : Option (List ℤ) :=
  if s = 0 then none else some (a.map (fun x => Int.tdiv x s))

/-- The loop of `Vector::operator/=(const Vector<T, N>&)` (Vector.h lines
375-383): each iteration runs `assert(other[i] != T())` before dividing. -/
def divAssignLoop : List (ℤ × ℤ) → Option (List ℤ)
  | [] => some []
  | (x, y) :: rest =>
    if y = 0 then none
    else
      match divAssignLoop rest with
      | none => none
      | some r => some (Int.tdiv x y :: r)

/-- Embeds `Vector::operator/=(const Vector<T, N>&)` (Vector.h lines 375-383),
defined only for equal sizes. -/
def vecDivAssignV (a b : List ℤ) : Option (List ℤ) :=
  divAssignLoop (a.zip b)

/-! ## FixedMatrix (Matrix.h)

`Matrix<T, N, M>` is a `List (List ℤ)`: `N` rows of length `M`. -/

/-- Embeds `Matrix::operator/(const T &scalar)` (Matrix.h lines 180-190):
`assert(scalar != T() && "Division by zero in Matrix.")`, then divide every
element.  The same guard protects `operator/=` (lines 226-235). -/
def matScalarDiv (m : List (List ℤ)) (s : ℤ) : Option (List (List ℤ)) :=
  if s = 0 then none
  else some (m.map (fun row => row.map (fun x => Int.tdiv x s)))

/-- The local `result` computed by `Matrix::operator-` (Matrix.h lines
98-104): row `i` is `(*this)[i] - other[i]` via the equal-size
`Vector::operator-`. -/
def matSubLocal (a b : List (List ℤ)) : List (List ℤ) :=
  List.zipWith vecSub a b

/-- Embeds `Matrix::operator-` (Matrix.h lines 98-104) as written: the body
fills the local `result` and then ends WITHOUT a `return` statement, so the
call yields no value (`none` in the abort/no-value model). -/
def matSubRet (a b : List (List ℤ)) : Option (List (List ℤ)) :=
  let _result := matSubLocal a b
  none

/-- The local `result` computed by `Matrix::operator*` (Matrix.h lines
106-113): row `i` is `(*this)[i] * other[i]` via the equal-size
`Vector::operator*`. -/
def matMulLocal (a b : List (List ℤ)) : List (List ℤ) :=
  List.zipWith vecMul a b

/-- Embeds `Matrix::operator*` (Matrix.h lines 106-113) as written: like
`operator-`, the body computes `result` but has no `return` statement. -/
def matMulRet (a b : List (List ℤ)) : Option (List (List ℤ)) :=
  let _result := matMulLocal a b
  none

/-- C5: cross-size vector addition has the longer size, adds componentwise
with the shorter operand zero-extended, and is commutative;
`Vector(1,2) + Vector(3,4,5) == Vector(4,6,5) == Vector(3,4,5) + Vector(1,2)`. -/
theorem vecAdd_padded_commutative (a b : List ℤ) :
    (vecAdd a b).length = max a.length b.length
    ∧ (∀ i, (vecAdd a b).getD i 0 = a.getD i 0 + b.getD i 0)
    ∧ vecAdd a b = vecAdd b a
    ∧ vecAdd [1, 2] [3, 4, 5] = [4, 6, 5]
    ∧ vecAdd [3, 4, 5] [1, 2] = [4, 6, 5] := by
  refine ⟨?_, ?_, ?_, by decide, by decide⟩
  · by_cases h : b.length ≤ a.length
    all_goals simp [vecAdd, h, buildVec_length]
    all_goals omega
  · intro i
    by_cases h : b.length ≤ a.length
    · rw [vecAdd, if_pos h]
      rcases Nat.lt_or_ge i a.length with hi | hi
      · exact buildVec_getD _ _ _ hi
      · rw [buildVec_getD_ge _ _ _ hi, List.getD_eq_default _ _ hi,
          List.getD_eq_default _ _ (by omega)]
        simp
    · rw [vecAdd, if_neg h]
      rcases Nat.lt_or_ge i b.length with hi | hi
      · rw [buildVec_getD _ _ _ hi]
        ring
      · rw [buildVec_getD_ge _ _ _ hi, List.getD_eq_default _ _ hi,
          List.getD_eq_default _ _ (by omega)]
        simp
  · by_cases h1 : b.length ≤ a.length
    all_goals by_cases h2 : a.length ≤ b.length
    · have hlen : a.length = b.length := by omega
      rw [vecAdd, if_pos h1, vecAdd, if_pos h2, hlen]
      exact buildVec_congr _ _ _ (fun i _ => by ring)
    · rw [vecAdd, if_pos h1, vecAdd, if_neg h2]
    · rw [vecAdd, if_neg h1, vecAdd, if_pos h2]
    · omega

/-- C6: vector-by-vector division (declared only for dividend size ≤ divisor
size) has the divisor's size, divides componentwise with the dividend
zero-extended, and `Vector(10,20) / Vector(5,2,535) == Vector(2,10,0)`. -/
theorem vecDiv_dividend_zero_extended (a b : List ℤ) (h : a.length ≤ b.length) :
    (vecDiv a b).length = b.length
    ∧ (∀ i, (vecDiv a b).getD i 0 =
        Int.tdiv ((a ++ List.replicate (b.length - a.length) 0).getD i 0) (b.getD i 0))
    ∧ vecDiv [10, 20] [5, 2, 535] = [2, 10, 0] := by
  refine ⟨buildVec_length _ _, ?_, by decide⟩
  intro i
  rcases Nat.lt_or_ge i b.length with hi | hi
  · rw [vecDiv, buildVec_getD _ _ _ hi]
    rcases Nat.lt_or_ge i a.length with ha | ha
    · rw [if_pos ha, List.getD_append _ _ _ _ ha]
    · rw [if_neg (by omega), List.getD_append_right _ _ _ _ ha, replicate_getD,
        Int.zero_tdiv]
  · rw [vecDiv, buildVec_getD_ge _ _ _ hi,
      List.getD_eq_default _ _ (by simp; omega),
      List.getD_eq_default _ _ hi, Int.zero_tdiv]

/-- Witness for `vecDiv_dividend_zero_extended` at the spec's own example. -/
theorem vecDiv_dividend_zero_extended_witness :
    (List.length [(10 : ℤ), 20] ≤ List.length [(5 : ℤ), 2, 535])
    ∧ vecDiv [10, 20] [5, 2, 535] = [2, 10, 0] :=
  ⟨by decide, (vecDiv_dividend_zero_extended [10, 20] [5, 2, 535] (by decide)).2.2⟩

/-- C9: for a strictly shorter right operand, `v *= w` multiplies only slots
`0..M-1` and leaves slots `M..N-1` unchanged, while `v * w` zeroes those
trailing slots — so the two can differ. -/
theorem vecMulAssign_frame_effect (a b : List ℤ) (h : b.length < a.length) :
    (vecMulAssign a b).length = a.length
    ∧ (∀ i, i < b.length → (vecMulAssign a b).getD i 0 = a.getD i 0 * b.getD i 0)
    ∧ (∀ i, b.length ≤ i → (vecMulAssign a b).getD i 0 = a.getD i 0)
    ∧ (∀ i, b.length ≤ i → i < a.length → (vecMul a b).getD i 0 = 0)
    ∧ vecMulAssign [1, 2, 3] [5] ≠ vecMul [1, 2, 3] [5] := by
  refine ⟨buildVec_length _ _, ?_, ?_, ?_, by decide⟩
  · intro i hi
    rw [vecMulAssign, buildVec_getD _ _ _ (by omega), if_pos hi]
  · intro i hi
    rcases Nat.lt_or_ge i a.length with ha | ha
    · rw [vecMulAssign, buildVec_getD _ _ _ ha, if_neg (by omega)]
    · rw [vecMulAssign, buildVec_getD_ge _ _ _ ha, List.getD_eq_default _ _ ha]
  · intro i hi ha
    rw [vecMul, if_pos (le_of_lt h), buildVec_getD _ _ _ ha, if_neg (by omega)]

/-- Witness for `vecMulAssign_frame_effect` at `v = (1,2,3)`, `w = (5)`. -/
theorem vecMulAssign_frame_effect_witness :
    (List.length [(5 : ℤ)] < List.length [(1 : ℤ), 2, 3])
    ∧ vecMulAssign [1, 2, 3] [5] ≠ vecMul [1, 2, 3] [5] :=
  ⟨by decide, (vecMulAssign_frame_effect [1, 2, 3] [5] (by decide)).2.2.2.2⟩

/-- C3 (claim fails on the code): `Vector::operator/(const Vector<T, M>&)`
contains no `assert`, so dividing by a vector with a zero component returns a
value instead of aborting, while every other division operator
(`Interval::operator/`, `Vector::operator/(scalar)`,
`Vector::operator/=(vector)`, `Matrix::operator/(scalar)`) does abort on a
zero divisor. -/
theorem division_by_zero_guards :
    (vecDivUnchecked [1] [0]).isSome = true
    ∧ Interval.divScalar ⟨TimeUnit.Second, 1⟩ 0 = none
    ∧ vecScalarDiv [1, 2] 0 = none
    ∧ vecDivAssignV [1] [0] = none
    ∧ matScalarDiv [[1]] 0 = none := by
  decide

/-- C2 (claim fails on the code): `Matrix::operator-` and `Matrix::operator*`
compute the elementwise difference/product in a local `result` but end without
a `return` statement, so no value is returned; the locally computed rows are
exactly what the claim describes. -/
theorem matrix_sub_mul_missing_return :
    matSubRet [[5]] [[3]] = none
    ∧ matMulRet [[5]] [[3]] = none
    ∧ matSubLocal [[5]] [[3]] = [[2]]
    ∧ matMulLocal [[5]] [[3]] = [[15]] := by
  decide

/-! ## Vector comparison operators (Vector.h lines 569-803)

Each operator loops over the shared prefix with early returns, then walks the
trailing slots of the longer operand comparing them against `T()` (zero).  The
embeddings below are structural recursions performing the same comparisons in
the same order: the cons/cons case is the shared-prefix iteration, the
nil/cons and cons/nil cases are the two trailing loops. -/

/-- Embeds `Vector::operator==` (Vector.h lines 569-596). -/
def vecEq : List ℤ → List ℤ → Bool
  | [], [] => true
  | [], y :: ys => if y = 0 then vecEq [] ys else false
  | x :: xs, [] => if x = 0 then vecEq xs [] else false
  | x :: xs, y :: ys => if x = y then vecEq xs ys else false

/-- Embeds `Vector::operator!=` (Vector.h lines 604-631). -/
def vecNe : List ℤ → List ℤ → Bool
  | [], [] => false
  | [], y :: ys => if y = 0 then vecNe [] ys else true
  | x :: xs, [] => if x = 0 then vecNe xs [] else true
  | x :: xs, y :: ys => if x = y then vecNe xs ys else true

/-- Embeds `Vector::operator<` (Vector.h lines 639-674). -/
def vecLt : List ℤ → List ℤ → Bool
  | [], [] => false
  | [], y :: ys => if 0 < y then true else if y < 0 then false else vecLt [] ys
  | x :: xs, [] => if 0 < x then false else if x < 0 then true else vecLt xs []
  | x :: xs, y :: ys => if x < y then true else if y < x then false else vecLt xs ys

/-- Embeds `Vector::operator<=` (Vector.h lines 682-717): the same loops as
`operator<` but the fall-through result is `true`. -/
def vecLe : List ℤ → List ℤ → Bool
  | [], [] => true
  | [], y :: ys => if 0 < y then true else if y < 0 then false else vecLe [] ys
  | x :: xs, [] => if 0 < x then false else if x < 0 then true else vecLe xs []
  | x :: xs, y :: ys => if x < y then true else if y < x then false else vecLe xs ys

/-- Embeds `Vector::operator>` (Vector.h lines 725-760). -/
def vecGt : List ℤ → List ℤ → Bool
  | [], [] => false
  | [], y :: ys => if 0 < y then false else if y < 0 then true else vecGt [] ys
  | x :: xs, [] => if 0 < x then true else if x < 0 then false else vecGt xs []
  | x :: xs, y :: ys => if y < x then true else if x < y then false else vecGt xs ys

/-- Embeds `Vector::operator>=` (Vector.h lines 768-803): the same loops as
`operator>` but the fall-through result is `true`. -/
def vecGe : List ℤ → List ℤ → Bool
  | [], [] => true
  | [], y :: ys => if 0 < y then false else if y < 0 then true else vecGe [] ys
  | x :: xs, [] => if 0 < x then true else if x < 0 then false else vecGe xs []
  | x :: xs, y :: ys => if y < x then true else if x < y then false else vecGe xs ys

/-- Zero-extension of a vector to length `n` (the implicit padding the spec
describes). -/
def padTo (a : List ℤ) (n : ℕ) : List ℤ :=
  a ++ List.replicate (n - a.length) 0

/-- Strict lexicographic comparison of two equal-length lists: the first
differing component decides. -/
def lexLt : List ℤ → List ℤ → Bool
  | x :: xs, y :: ys => if x < y then true else if x = y then lexLt xs ys else false
  | _, _ => false

/-- Non-strict lexicographic comparison of two equal-length lists. -/
def lexLe : List ℤ → List ℤ → Bool
  | x :: xs, y :: ys => if x < y then true else if x = y then lexLe xs ys else false
  | _, _ => true

theorem vecEq_nil_left : ∀ b : List ℤ,
    vecEq [] b = decide (List.replicate b.length (0 : ℤ) = b) := by
  intro b
  induction b with
  | nil => simp [vecEq]
  | cons y ys ih =>
    rw [List.length_cons, List.replicate_succ]
    by_cases hy : y = 0
    · subst hy
      simp [vecEq, ih]
    · simp [vecEq, hy, Ne.symm hy]

theorem vecEq_nil_right : ∀ a : List ℤ,
    vecEq a [] = decide (a = List.replicate a.length (0 : ℤ)) := by
  intro a
  induction a with
  | nil => simp [vecEq]
  | cons x xs ih =>
    rw [List.length_cons, List.replicate_succ]
    by_cases hx : x = 0
    · subst hx
      simp [vecEq, ih]
    · simp [vecEq, hx]

theorem vecEq_pad : ∀ a b : List ℤ,
    vecEq a b = decide (a ++ List.replicate (b.length - a.length) (0 : ℤ)
      = b ++ List.replicate (a.length - b.length) (0 : ℤ)) := by
  intro a
  induction a with
  | nil =>
    intro b
    simpa using vecEq_nil_left b
  | cons x xs ih =>
    intro b
    cases b with
    | nil =>
      simpa using vecEq_nil_right (x :: xs)
    | cons y ys =>
      rw [List.length_cons, List.length_cons, Nat.succ_sub_succ, Nat.succ_sub_succ,
        List.cons_append, List.cons_append]
      by_cases hxy : x = y
      · subst hxy
        simp [vecEq, ih]
      · simp [vecEq, hxy]

theorem vecLt_nil_left : ∀ b : List ℤ,
    vecLt [] b = lexLt (List.replicate b.length (0 : ℤ)) b := by
  intro b
  induction b with
  | nil => simp [vecLt, lexLt]
  | cons y ys ih =>
    rw [List.length_cons, List.replicate_succ]
    rcases lt_trichotomy 0 y with h | h | h
    · simp [vecLt, lexLt, h]
    · rw [← h]
      simp [vecLt, lexLt, ih]
    · have h1 : ¬ (0 : ℤ) < y := by omega
      have h2 : (0 : ℤ) ≠ y := by omega
      simp [vecLt, lexLt, h, h1, h2]

theorem vecLt_nil_right : ∀ a : List ℤ,
    vecLt a [] = lexLt a (List.replicate a.length (0 : ℤ)) := by
  intro a
  induction a with
  | nil => simp [vecLt, lexLt]
  | cons x xs ih =>
    rw [List.length_cons, List.replicate_succ]
    rcases lt_trichotomy 0 x with h | h | h
    · have h1 : ¬ x < (0 : ℤ) := by omega
      have h2 : x ≠ (0 : ℤ) := by omega
      simp [vecLt, lexLt, h, h1, h2]
    · rw [← h]
      simp [vecLt, lexLt, ih]
    · have h1 : ¬ (0 : ℤ) < x := by omega
      simp [vecLt, lexLt, h, h1]

theorem vecLt_pad : ∀ a b : List ℤ,
    vecLt a b = lexLt (a ++ List.replicate (b.length - a.length) (0 : ℤ))
      (b ++ List.replicate (a.length - b.length) (0 : ℤ)) := by
  intro a
  induction a with
  | nil =>
    intro b
    simpa using vecLt_nil_left b
  | cons x xs ih =>
    intro b
    cases b with
    | nil =>
      simpa using vecLt_nil_right (x :: xs)
    | cons y ys =>
      rw [List.length_cons, List.length_cons, Nat.succ_sub_succ, Nat.succ_sub_succ,
        List.cons_append, List.cons_append]
      rcases lt_trichotomy x y with h | h | h
      · simp [vecLt, lexLt, h]
      · subst h
        simp [vecLt, lexLt, ih]
      · have h1 : ¬ x < y := by omega
        have h2 : x ≠ y := by omega
        simp [vecLt, lexLt, h, h1, h2]

theorem vecLe_nil_left : ∀ b : List ℤ,
    vecLe [] b = lexLe (List.replicate b.length (0 : ℤ)) b := by
  intro b
  induction b with
  | nil => simp [vecLe, lexLe]
  | cons y ys ih =>
    rw [List.length_cons, List.replicate_succ]
    rcases lt_trichotomy 0 y with h | h | h
    · simp [vecLe, lexLe, h]
    · rw [← h]
      simp [vecLe, lexLe, ih]
    · have h1 : ¬ (0 : ℤ) < y := by omega
      have h2 : (0 : ℤ) ≠ y := by omega
      simp [vecLe, lexLe, h, h1, h2]

theorem vecLe_nil_right : ∀ a : List ℤ,
    vecLe a [] = lexLe a (List.replicate a.length (0 : ℤ)) := by
  intro a
  induction a with
  | nil => simp [vecLe, lexLe]
  | cons x xs ih =>
    rw [List.length_cons, List.replicate_succ]
    rcases lt_trichotomy 0 x with h | h | h
    · have h1 : ¬ x < (0 : ℤ) := by omega
      have h2 : x ≠ (0 : ℤ) := by omega
      simp [vecLe, lexLe, h, h1, h2]
    · rw [← h]
      simp [vecLe, lexLe, ih]
    · have h1 : ¬ (0 : ℤ) < x := by omega
      simp [vecLe, lexLe, h, h1]

theorem vecLe_pad : ∀ a b : List ℤ,
    vecLe a b = lexLe (a ++ List.replicate (b.length - a.length) (0 : ℤ))
      (b ++ List.replicate (a.length - b.length) (0 : ℤ)) := by
  intro a
  induction a with
  | nil =>
    intro b
    simpa using vecLe_nil_left b
  | cons x xs ih =>
    intro b
    cases b with
    | nil =>
      simpa using vecLe_nil_right (x :: xs)
    | cons y ys =>
      rw [List.length_cons, List.length_cons, Nat.succ_sub_succ, Nat.succ_sub_succ,
        List.cons_append, List.cons_append]
      rcases lt_trichotomy x y with h | h | h
      · simp [vecLe, lexLe, h]
      · subst h
        simp [vecLe, lexLe, ih]
      · have h1 : ¬ x < y := by omega
        have h2 : x ≠ y := by omega
        simp [vecLe, lexLe, h, h1, h2]

theorem vecNe_not_eq : ∀ a b : List ℤ, vecNe a b = !vecEq a b := by
  intro a
  induction a with
  | nil =>
    intro b
    induction b with
    | nil => simp [vecNe, vecEq]
    | cons y ys ih => simp [vecNe, vecEq, ih]
  | cons x xs ih =>
    intro b
    cases b with
    | nil =>
      have ihn := ih []
      simp [vecNe, vecEq, ihn]
    | cons y ys => simp [vecNe, vecEq, ih]

theorem vecGt_swap : ∀ a b : List ℤ, vecGt a b = vecLt b a := by
  intro a
  induction a with
  | nil =>
    intro b
    induction b with
    | nil => simp [vecGt, vecLt]
    | cons y ys ih => simp [vecGt, vecLt, ih]
  | cons x xs ih =>
    intro b
    cases b with
    | nil =>
      have ihn := ih []
      simp [vecGt, vecLt, ihn]
    | cons y ys => simp [vecGt, vecLt, ih]

theorem vecGe_swap : ∀ a b : List ℤ, vecGe a b = vecLe b a := by
  intro a
  induction a with
  | nil =>
    intro b
    induction b with
    | nil => simp [vecGe, vecLe]
    | cons y ys ih => simp [vecGe, vecLe, ih]
  | cons x xs ih =>
    intro b
    cases b with
    | nil =>
      have ihn := ih []
      simp [vecGe, vecLe, ihn]
    | cons y ys => simp [vecGe, vecLe, ih]

/-- C8: each of the six vector comparison operators returns exactly the
lexicographic comparison of the two operands zero-extended to the common
length `max(N, M)`; in particular `Vector(1,2) == Vector(1,2,0)` and
`Vector(1,2) != Vector(1,2,1)`. -/
theorem vec_cmp_lexicographic_padded (a b : List ℤ) :
    vecEq a b = decide (padTo a (max a.length b.length) = padTo b (max a.length b.length))
    ∧ vecNe a b = !decide (padTo a (max a.length b.length) = padTo b (max a.length b.length))
    ∧ vecLt a b = lexLt (padTo a (max a.length b.length)) (padTo b (max a.length b.length))
    ∧ vecLe a b = lexLe (padTo a (max a.length b.length)) (padTo b (max a.length b.length))
    ∧ vecGt a b = lexLt (padTo b (max a.length b.length)) (padTo a (max a.length b.length))
    ∧ vecGe a b = lexLe (padTo b (max a.length b.length)) (padTo a (max a.length b.length))
    ∧ vecEq [1, 2] [1, 2, 0] = true
    ∧ vecEq [1, 2] [1, 2, 1] = false := by
  have hab : max a.length b.length - a.length = b.length - a.length := by omega
  have hba : max a.length b.length - b.length = a.length - b.length := by omega
  unfold padTo
  rw [hab, hba]
  refine ⟨vecEq_pad a b, ?_, vecLt_pad a b, vecLe_pad a b, ?_, ?_, ?_, ?_⟩
  · rw [vecNe_not_eq, vecEq_pad a b]
  · rw [vecGt_swap, vecLt_pad b a]
  · rw [vecGe_swap, vecLe_pad b a]
  · norm_num [vecEq]
  · norm_num [vecEq]

end MathUtils
